import Mathlib

/-
Verification of the UVBeatShelf library layer.

Shallow embedding of the data-access and playlist-ordering layer of the
repository (src/models). Python integers are modelled as Int (with
Int.fdiv and Int.fmod for the floor-division semantics of divmod) or as
Nat where the source only ever sees nonnegative values. SQL tables are
modelled as Lean lists of rows; each SQL statement of the source is
translated into the corresponding pure list operation, in the exact
order the source executes them.
-/

/- ---------------------------------------------------------------
   Duration formatting (src/models/playlist.py, track.py,
   music_library.py)
   --------------------------------------------------------------- -/

/-- Python string formatting of an integer with format spec 02d:
pad with a leading zero to a minimum total width of two characters.
For a negative integer the rendering (sign included) already has width
at least two, so it is returned unchanged. -/
def pyFormat02 (n : Int) : String :=
  if 0 ≤ n ∧ n < 10 then "0" ++ toString n else toString n

/-- Playlist._format_duration (src/models/playlist.py lines 219-234):
hours, remainder = divmod(duration, 3600); minutes, seconds =
divmod(remainder, 60); render HH:MM:SS if hours is truthy (nonzero),
else MM:SS. -/
def Playlist.format_duration (duration : Int) : String :=
  let hours := duration.fdiv 3600
  let remainder := duration.fmod 3600
  let minutes := remainder.fdiv 60
  let seconds := remainder.fmod 60
  if hours ≠ 0 then
    pyFormat02 hours ++ ":" ++ pyFormat02 minutes ++ ":" ++ pyFormat02 seconds
  else
    pyFormat02 minutes ++ ":" ++ pyFormat02 seconds

/-- Track._format_duration (src/models/track.py lines 219-230):
minutes, seconds = divmod(duration, 60); render MM:SS. -/
def Track.format_duration (duration : Int) : String :=
  let minutes := duration.fdiv 60
  let seconds := duration.fmod 60
  pyFormat02 minutes ++ ":" ++ pyFormat02 seconds

/-- MusicLibrary.format_duration (src/models/music_library.py lines
207-218): minutes, seconds = divmod(duration, 60); render MM:SS. -/
def MusicLibrary.format_duration (duration : Int) : String :=
  let minutes := duration.fdiv 60
  let seconds := duration.fmod 60
  pyFormat02 minutes ++ ":" ++ pyFormat02 seconds

/- Cast helpers: Python divmod on nonnegative operands agrees with
Nat division and remainder. -/

theorem natCast_fdiv (a b : Nat) : (Int.ofNat a).fdiv (Int.ofNat b) = Int.ofNat (a / b) := by
  cases a with
  | zero => simp [Int.fdiv]
  | succ a => rfl

theorem natCast_fmod (a b : Nat) : (Int.ofNat a).fmod (Int.ofNat b) = Int.ofNat (a % b) := by
  cases a with
  | zero => simp [Int.fmod]
  | succ a => rfl

/-- Claim C6: for every nonnegative integer duration, the playlist
duration formatter decomposes it into hours, minutes and seconds and
renders HH:MM:SS (fields zero-padded to two digits) when hours are
positive and MM:SS otherwise; in particular the playlist formatter maps
3725 to 01:02:05 and 65 to 01:05, and the library facade formatter
maps 125 to 02:05. -/
theorem playlist_format_duration_spec (n : Nat) :
    (3600 ≤ n →
      Playlist.format_duration (Int.ofNat n) =
        pyFormat02 (Int.ofNat (n / 3600)) ++ ":" ++
        pyFormat02 (Int.ofNat (n % 3600 / 60)) ++ ":" ++
        pyFormat02 (Int.ofNat (n % 60))) ∧
    (n < 3600 →
      Playlist.format_duration (Int.ofNat n) =
        pyFormat02 (Int.ofNat (n / 60)) ++ ":" ++
        pyFormat02 (Int.ofNat (n % 60))) ∧
    Playlist.format_duration 3725 = "01:02:05" ∧
    Playlist.format_duration 65 = "01:05" ∧
    MusicLibrary.format_duration 125 = "02:05" := by
  have e3600 : (3600 : Int) = Int.ofNat 3600 := by norm_num
  have e60 : (60 : Int) = Int.ofNat 60 := by norm_num
  refine ⟨?_, ?_, by decide, by decide, by decide⟩
  · intro h
    have hpos : 0 < n / 3600 := Nat.div_pos h (by decide)
    have hzero : n / 3600 ≠ 0 := by omega
    have hne : Int.ofNat (n / 3600) ≠ 0 := by
      intro hc
      exact hzero (Int.ofNat_eq_zero.mp hc)
    simp only [Playlist.format_duration, e3600, e60, natCast_fdiv, natCast_fmod,
      hne, ne_eq, not_false_iff, if_true]
    rw [Nat.mod_mod_of_dvd n (by decide : (60 : Nat) ∣ 3600)]
  · intro h
    have h0 : n / 3600 = 0 := Nat.div_eq_of_lt h
    have hm : n % 3600 = n := Nat.mod_eq_of_lt h
    simp only [Playlist.format_duration, e3600, e60, natCast_fdiv, natCast_fmod,
      h0, hm]
    simp

/-- Witness for claim C6: the theorem applied at the concrete inputs
3725 (hour branch) and 65 (minute branch). -/
theorem playlist_format_duration_spec_witness :
    (3600 ≤ 3725 ∧
      Playlist.format_duration (Int.ofNat 3725) =
        pyFormat02 (Int.ofNat (3725 / 3600)) ++ ":" ++
        pyFormat02 (Int.ofNat (3725 % 3600 / 60)) ++ ":" ++
        pyFormat02 (Int.ofNat (3725 % 60))) ∧
    (65 < 3600 ∧
      Playlist.format_duration (Int.ofNat 65) =
        pyFormat02 (Int.ofNat (65 / 60)) ++ ":" ++
        pyFormat02 (Int.ofNat (65 % 60))) :=
  ⟨⟨by decide, (playlist_format_duration_spec 3725).1 (by decide)⟩,
   ⟨by decide, (playlist_format_duration_spec 65).2.1 (by decide)⟩⟩

/-- Claim C7: the Track repository formatter and the Library facade
formatter agree bit-for-bit on every integer duration. -/
theorem track_library_format_duration_agree :
    ∀ d : Int, Track.format_duration d = MusicLibrary.format_duration d :=
  fun _ => rfl

/- ---------------------------------------------------------------
   Storage Gateway (src/models/database_manager.py lines 25-51)
   --------------------------------------------------------------- -/

/-- Result value of DatabaseManager.execute as seen by Python callers:
a list of row dictionaries for SELECT statements, otherwise an integer
(lastrowid of an INSERT, or the affected row count). The error path
returns an empty list regardless of the statement kind. -/
inductive PyRet (ρ : Type) where
  | rows (l : List ρ)
  | num (n : Nat)
deriving DecidableEq, Repr

/-- A parameterized SQL statement, shallowly embedded: isSelect mirrors
the startswith SELECT test of the source; run is the semantics of
cursor.execute on the store, yielding on success the post-statement
store together with the fetched rows, the lastrowid (0 when the store
reports none, matching Python falsiness of None and 0) and the
rowcount, and on failure the sqlite3.Error message. A failing
statement is atomic: the connection rollback leaves the store as it
was before the call, which the embedding expresses by keeping the
pre-call store on the error path of execute. -/
structure SqlStatement (σ ρ : Type) where
  isSelect : Bool
  run : σ → Except String (σ × List ρ × Nat × Nat)

/-- DatabaseManager.execute: try the statement; for SELECT return the
fetched rows; otherwise commit and return lastrowid if truthy else
rowcount; on sqlite3.Error print, roll back, and return the empty
list. No exception escapes: the function is total. -/
def DatabaseManager.execute {σ ρ : Type} (st : SqlStatement σ ρ) (s : σ) :
    σ × PyRet ρ :=
  match st.run s with
  | Except.ok (s2, fetched, lastrowid, rowcount) =>
    if st.isSelect then (s2, PyRet.rows fetched)
    else (s2, PyRet.num (if lastrowid ≠ 0 then lastrowid else rowcount))
  | Except.error _ => (s, PyRet.rows [])

/-- Claim C4: for every execution failure of a statement, execute rolls
the transaction back so the store is unchanged, returns an empty list
to the caller, and lets no exception escape (execute is a total
function into a plain pair). -/
theorem execute_failure_rolls_back {σ ρ : Type} (st : SqlStatement σ ρ)
    (s : σ) (e : String) (h : st.run s = Except.error e) :
    DatabaseManager.execute st s = (s, PyRet.rows []) := by
  unfold DatabaseManager.execute
  rw [h]

/-- Witness for claim C4: a concrete store and a statement whose
execution fails with a constraint violation. -/
theorem execute_failure_rolls_back_witness :
    DatabaseManager.execute
      (SqlStatement.mk false
        (fun (_ : Nat) => Except.error "UNIQUE constraint failed"))
      7 = (7, PyRet.rows ([] : List Nat)) :=
  execute_failure_rolls_back _ 7 "UNIQUE constraint failed" rfl

/- ---------------------------------------------------------------
   Artist get-or-create (src/models/music_library.py lines 113-126,
   src/models/artist.py lines 18-58)
   --------------------------------------------------------------- -/

/-- The artists table: rows (id, name) in insertion order, plus the
next AUTOINCREMENT id handed out by the store. -/
structure ArtistsTable where
  rows : List (Nat × String)
  nextId : Nat
deriving DecidableEq, Repr

/-- Artist.get_by_name: SELECT * FROM artists WHERE name = ?, returning
the first matching row or None. -/
def Artist.get_by_name (db : ArtistsTable) (name : String) :
    Option (Nat × String) :=
  (db.rows.filter (fun r => r.2 == name)).head?

/-- Artist.add: INSERT INTO artists (name) VALUES (?). The UNIQUE
constraint on name makes the insert fail when the name is already
present, in which case execute returns an empty list (modelled none)
and the table is unchanged; on success the returned value is the
lastrowid of the new row. -/
def Artist.add (db : ArtistsTable) (name : String) :
    ArtistsTable × Option Nat :=
  if db.rows.any (fun r => r.2 == name) then (db, none)
  else (ArtistsTable.mk (db.rows ++ [(db.nextId, name)]) (db.nextId + 1),
        some db.nextId)

/-- MusicLibrary.add_artist: get-or-create; look the name up first and
return the existing id, otherwise insert and return the new id. -/
def MusicLibrary.add_artist (db : ArtistsTable) (name : String) :
    ArtistsTable × Option Nat :=
  match Artist.get_by_name db name with
  | some existing => (db, some existing.1)
  | none => Artist.add db name

/-- Claim C8: calling the get-or-create add_artist twice sequentially
with the same name, starting from a table where the name is absent,
returns the same id both times and creates exactly one artist row. -/
theorem add_artist_idempotent (db : ArtistsTable) (name : String)
    (habs : Artist.get_by_name db name = none) :
    (MusicLibrary.add_artist db name).2 = some db.nextId ∧
    (MusicLibrary.add_artist
        (MusicLibrary.add_artist db name).1 name).2 = some db.nextId ∧
    (MusicLibrary.add_artist
        (MusicLibrary.add_artist db name).1 name).1.rows.length =
      db.rows.length + 1 := by
  have hfilter : db.rows.filter (fun r => r.2 == name) = [] := by
    unfold Artist.get_by_name at habs
    cases hf : db.rows.filter (fun r => r.2 == name) with
    | nil => rfl
    | cons x xs => rw [hf] at habs; simp at habs
  have hany : db.rows.any (fun r => r.2 == name) = false := by
    rw [List.any_eq_false]
    intro x hx hpx
    have hmemf : x ∈ db.rows.filter (fun r => r.2 == name) :=
      List.mem_filter.mpr ⟨hx, hpx⟩
    rw [hfilter] at hmemf
    exact absurd hmemf (List.not_mem_nil x)
  have hstep1 : MusicLibrary.add_artist db name =
      (ArtistsTable.mk (db.rows ++ [(db.nextId, name)]) (db.nextId + 1),
       some db.nextId) := by
    unfold MusicLibrary.add_artist Artist.add
    rw [habs, hany]
    rfl
  have hlookup2 : Artist.get_by_name
      (ArtistsTable.mk (db.rows ++ [(db.nextId, name)]) (db.nextId + 1))
      name = some (db.nextId, name) := by
    unfold Artist.get_by_name
    simp only [List.filter_append, hfilter]
    simp
  refine ⟨by rw [hstep1], ?_, ?_⟩
  · rw [hstep1]
    unfold MusicLibrary.add_artist
    rw [hlookup2]
  · rw [hstep1]
    unfold MusicLibrary.add_artist
    rw [hlookup2]
    simp

/-- Witness for claim C8: a concrete table holding one other artist,
and a name absent from it. -/
theorem add_artist_idempotent_witness :
    Artist.get_by_name (ArtistsTable.mk [(1, "Queen")] 2) "ABBA" = none ∧
    ((MusicLibrary.add_artist (ArtistsTable.mk [(1, "Queen")] 2) "ABBA").2 =
        some 2 ∧
      (MusicLibrary.add_artist
          (MusicLibrary.add_artist
            (ArtistsTable.mk [(1, "Queen")] 2) "ABBA").1 "ABBA").2 = some 2 ∧
      (MusicLibrary.add_artist
          (MusicLibrary.add_artist
            (ArtistsTable.mk [(1, "Queen")] 2) "ABBA").1 "ABBA").1.rows.length =
        (ArtistsTable.mk [(1, "Queen")] 2).rows.length + 1) :=
  ⟨by decide,
   add_artist_idempotent (ArtistsTable.mk [(1, "Queen")] 2) "ABBA" (by decide)⟩

/- ---------------------------------------------------------------
   Partial-field updates (src/models/track.py lines 105-142,
   src/models/album.py lines 63-93)
   --------------------------------------------------------------- -/

/-- A row of the tracks table. -/
structure TrackRow where
  id : Nat
  title : String
  artist_id : Option Nat
  album_id : Option Nat
  duration : Option Nat
  file_path : String
  cover_path : Option String
  lyrics : Option String
deriving DecidableEq, Repr

/-- A row of the albums table. -/
structure AlbumRow where
  id : Nat
  title : String
  artist_id : Option Nat
  year : Option Nat
deriving DecidableEq, Repr

/-- Python truthiness of an optional string argument: None and the
empty string are falsy. The source guards title with a plain if,
so a supplied empty title is skipped like an absent one. -/
def pyTruthyStr : Option String → Bool
  | some t => !(t == "")
  | none => false

/-- Track.update: collect SET clauses for title (truthiness test),
artist_id, album_id, duration and lyrics (is-not-None tests); with no
clause return 0 without touching the store; otherwise run UPDATE
tracks SET ... WHERE id = ?, whose rowcount is the number of rows with
the given id. -/
def Track.update (rows : List TrackRow) (track_id : Nat)
    (title : Option String) (artist_id album_id duration : Option Nat)
    (lyrics : Option String) : List TrackRow × Nat :=
  if pyTruthyStr title || artist_id.isSome || album_id.isSome ||
      duration.isSome || lyrics.isSome then
    (rows.map (fun r =>
      if r.id == track_id then
        { r with
          title := if pyTruthyStr title then title.getD r.title else r.title
          artist_id := if artist_id.isSome then artist_id else r.artist_id
          album_id := if album_id.isSome then album_id else r.album_id
          duration := if duration.isSome then duration else r.duration
          lyrics := if lyrics.isSome then lyrics else r.lyrics }
      else r),
     (rows.filter (fun r => r.id == track_id)).length)
  else (rows, 0)

/-- Album.update: collect SET clauses for title (truthiness test),
artist_id and year (is-not-None tests); with no clause return 0
without touching the store; otherwise run UPDATE albums SET ... WHERE
id = ?. -/
def Album.update (rows : List AlbumRow) (album_id : Nat)
    (title : Option String) (artist_id year : Option Nat) :
    List AlbumRow × Nat :=
  if pyTruthyStr title || artist_id.isSome || year.isSome then
    (rows.map (fun r =>
      if r.id == album_id then
        { r with
          title := if pyTruthyStr title then title.getD r.title else r.title
          artist_id := if artist_id.isSome then artist_id else r.artist_id
          year := if year.isSome then year else r.year }
      else r),
     (rows.filter (fun r => r.id == album_id)).length)
  else (rows, 0)

/-- Claim C9: a partial update of a track or album row writes only the
supplied fields: every row with a different id is unchanged, every
non-supplied field of the matched row is unchanged (along with the
fields no update can touch), and an update call with no supplied
fields is a no-op returning zero affected rows and leaving the store
unchanged. -/
theorem update_writes_only_supplied_fields :
    (∀ (rows : List TrackRow) (tid : Nat) (title : Option String)
        (aid alid dur : Option Nat) (lyr : Option String)
        (i : Nat) (r r2 : TrackRow),
      rows[i]? = some r →
      (Track.update rows tid title aid alid dur lyr).1[i]? = some r2 →
      (r.id ≠ tid → r2 = r) ∧
      r2.id = r.id ∧ r2.file_path = r.file_path ∧
      r2.cover_path = r.cover_path ∧
      (title = none → r2.title = r.title) ∧
      (aid = none → r2.artist_id = r.artist_id) ∧
      (alid = none → r2.album_id = r.album_id) ∧
      (dur = none → r2.duration = r.duration) ∧
      (lyr = none → r2.lyrics = r.lyrics)) ∧
    (∀ (rows : List TrackRow) (tid : Nat),
      Track.update rows tid none none none none none = (rows, 0)) ∧
    (∀ (rows : List AlbumRow) (aid : Nat) (title : Option String)
        (artid year : Option Nat) (i : Nat) (r r2 : AlbumRow),
      rows[i]? = some r →
      (Album.update rows aid title artid year).1[i]? = some r2 →
      (r.id ≠ aid → r2 = r) ∧
      r2.id = r.id ∧
      (title = none → r2.title = r.title) ∧
      (artid = none → r2.artist_id = r.artist_id) ∧
      (year = none → r2.year = r.year)) ∧
    (∀ (rows : List AlbumRow) (aid : Nat),
      Album.update rows aid none none none = (rows, 0)) := by
  refine ⟨?_, ?_, ?_, ?_⟩
  · intro rows tid title aid alid dur lyr i r r2 hr hr2
    unfold Track.update at hr2
    by_cases hcond : (pyTruthyStr title || aid.isSome || alid.isSome ||
        dur.isSome || lyr.isSome) = true
    · rw [if_pos hcond] at hr2
      simp only [List.getElem?_map, hr, Option.map_some'] at hr2
      by_cases hid : r.id == tid
      · rw [if_pos hid] at hr2
        cases hr2
        refine ⟨fun hne => absurd (eq_of_beq hid) hne,
          rfl, rfl, rfl, ?_, ?_, ?_, ?_, ?_⟩ <;>
          intro hnone <;> subst hnone <;> simp [pyTruthyStr]
      · rw [if_neg hid] at hr2
        cases hr2
        exact ⟨fun _ => rfl, rfl, rfl, rfl, fun _ => rfl, fun _ => rfl,
          fun _ => rfl, fun _ => rfl, fun _ => rfl⟩
    · rw [if_neg hcond] at hr2
      rw [hr] at hr2
      cases hr2
      exact ⟨fun _ => rfl, rfl, rfl, rfl, fun _ => rfl, fun _ => rfl,
        fun _ => rfl, fun _ => rfl, fun _ => rfl⟩
  · intro rows tid
    unfold Track.update
    simp [pyTruthyStr]
  · intro rows aid title artid year i r r2 hr hr2
    unfold Album.update at hr2
    by_cases hcond : (pyTruthyStr title || artid.isSome || year.isSome) = true
    · rw [if_pos hcond] at hr2
      simp only [List.getElem?_map, hr, Option.map_some'] at hr2
      by_cases hid : r.id == aid
      · rw [if_pos hid] at hr2
        cases hr2
        refine ⟨fun hne => absurd (eq_of_beq hid) hne,
          rfl, ?_, ?_, ?_⟩ <;>
          intro hnone <;> subst hnone <;> simp [pyTruthyStr]
      · rw [if_neg hid] at hr2
        cases hr2
        exact ⟨fun _ => rfl, rfl, fun _ => rfl, fun _ => rfl, fun _ => rfl⟩
    · rw [if_neg hcond] at hr2
      rw [hr] at hr2
      cases hr2
      exact ⟨fun _ => rfl, rfl, fun _ => rfl, fun _ => rfl, fun _ => rfl⟩
  · intro rows aid
    unfold Album.update
    simp [pyTruthyStr]

/-- Witness for claim C9: a one-row tracks table, updating only the
title of row 1 keeps its duration, and the all-None call is a no-op
returning 0. -/
theorem update_writes_only_supplied_fields_witness :
    ((Track.update [TrackRow.mk 1 "a" none none (some 100) "p1" none none]
        1 (some "b") none none none none).1[0]? =
      some (TrackRow.mk 1 "b" none none (some 100) "p1" none none)) ∧
    (TrackRow.mk 1 "b" none none (some 100) "p1" none none).duration =
      (TrackRow.mk 1 "a" none none (some 100) "p1" none none).duration ∧
    Track.update [TrackRow.mk 1 "a" none none (some 100) "p1" none none]
      1 none none none none none =
      ([TrackRow.mk 1 "a" none none (some 100) "p1" none none], 0) :=
  ⟨by decide,
   (update_writes_only_supplied_fields.1
      [TrackRow.mk 1 "a" none none (some 100) "p1" none none] 1
      (some "b") none none none none 0
      (TrackRow.mk 1 "a" none none (some 100) "p1" none none)
      (TrackRow.mk 1 "b" none none (some 100) "p1" none none)
      (by decide) (by decide)).2.2.2.2.2.2.2.1 rfl,
   update_writes_only_supplied_fields.2.1 _ 1⟩

/- ---------------------------------------------------------------
   Backup and migration (src/models/database_manager.py lines 156-247)
   --------------------------------------------------------------- -/

/-- The five tables of the store. Rows are opaque tokens; the schema
produced by create_tables is the same before and after migration, so
the column-intersection projection of transfer_data is the identity on
rows and is not modelled further. -/
structure Store where
  artists : List Nat
  albums : List Nat
  tracks : List Nat
  playlists : List Nat
  playlist_tracks : List Nat
deriving DecidableEq, Repr

/-- create_tables on a fresh file: five empty tables. -/
def emptyStore : Store :=
  Store.mk [] [] [] [] []

/-- INSERT OR IGNORE of one row: skipped when the row is already
present (constraint conflict), appended otherwise. -/
def insertOrIgnore (dest : List Nat) (row : Nat) : List Nat :=
  if row ∈ dest then dest else dest ++ [row]

/-- transfer_data, per table: SELECT * from the source table and
insert each row into the destination table with INSERT OR IGNORE. -/
def transferTable (dest src : List Nat) : List Nat :=
  src.foldl insertOrIgnore dest

/-- DatabaseManager.transfer_data(old_db_path): copy the rows of every
table of the store found at old_db_path into the current store. -/
def transfer_data (dest src : Store) : Store :=
  Store.mk
    (transferTable dest.artists src.artists)
    (transferTable dest.albums src.albums)
    (transferTable dest.tracks src.tracks)
    (transferTable dest.playlists src.playlists)
    (transferTable dest.playlist_tracks src.playlist_tracks)

/-- The filesystem as migrate_database sees it: the store at db_path
and the backup file (None when absent). -/
structure MigFS where
  db : Store
  backup : Option Store
deriving DecidableEq, Repr

/-- The four stages of the try block of migrate_database at which an
exception can surface: deleting the old file, recreating the schema,
transferring the rows, and reading back the per-table counts. -/
inductive MigStep where
  | destroy
  | recreate
  | transfer
  | verify
deriving DecidableEq, Repr

/-- The except branch of migrate_database: delete_database removes the
partially migrated store, shutil.copy2 copies the backup file over
db_path, and the exception is re-raised; the backup file is kept. -/
def migrateRestore (backupStore : Store) : MigFS × Except Unit (List Nat) :=
  (MigFS.mk backupStore (some backupStore), Except.error ())

/-- DatabaseManager.migrate_database. backup_database first copies the
store to a timestamped sibling path. Inside the try block,
old_db_path is set to self.db_path itself, create_new_database deletes
that very file and recreates the empty schema there, and transfer_data
then reads from old_db_path, which now holds the freshly created
empty store. The verification loop only reads the per-table counts
(returned here as the ok payload); it compares them to nothing.
On success the backup file is removed; on an exception at any stage
(modelled by the fault argument) the store is deleted, the backup is
copied back, and the exception is re-raised. -/
def migrate_database (fs : MigFS) (fault : Option MigStep) :
    MigFS × Except Unit (List Nat) :=
  let backupStore := fs.db
  if fault = some MigStep.destroy then migrateRestore backupStore else
  if fault = some MigStep.recreate then migrateRestore backupStore else
  let newDb := emptyStore
  let transferred := transfer_data newDb newDb
  if fault = some MigStep.transfer then migrateRestore backupStore else
  let counts := [transferred.artists.length, transferred.albums.length,
    transferred.tracks.length, transferred.playlists.length,
    transferred.playlist_tracks.length]
  if fault = some MigStep.verify then migrateRestore backupStore else
  (MigFS.mk transferred none, Except.ok counts)

/-- Claim C2 evidence (code bug): a successful migration of a store
holding one artist row ends with zero rows in every table, reports the
counts [0,0,0,0,0] without comparing them to the pre-migration counts,
and still deletes the backup file: transfer_data is called with
old_db_path equal to self.db_path, which create_new_database has just
emptied, so nothing is ever copied out of the backup. -/
theorem migrate_database_loses_rows :
    (migrate_database
        (MigFS.mk (Store.mk [10] [] [] [] []) none) none).1.db.artists.length
      = 0 ∧
    (Store.mk [10] [] [] [] []).artists.length = 1 ∧
    (migrate_database
        (MigFS.mk (Store.mk [10] [] [] [] []) none) none).1.backup = none ∧
    (migrate_database
        (MigFS.mk (Store.mk [10] [] [] [] []) none) none).2 =
      Except.ok [0, 0, 0, 0, 0] :=
  ⟨rfl, rfl, rfl, rfl⟩

/-- Claim C3: if an exception is raised at any stage of the migration
sequence (destroy, recreate, transfer, verify), migrate_database
deletes the partially migrated store, restores the store from the
pre-migration backup so that it is identical to its pre-migration
state, and re-raises the failure to the caller. -/
theorem migrate_database_restores_on_failure (fs : MigFS) (step : MigStep) :
    (migrate_database fs (some step)).1.db = fs.db ∧
    (migrate_database fs (some step)).1.backup = some fs.db ∧
    (migrate_database fs (some step)).2 = Except.error () := by
  cases step <;> exact ⟨rfl, rfl, rfl⟩

/- ---------------------------------------------------------------
   Playlist ordering engine (src/models/playlist.py lines 73-195)

   The playlist_tracks table restricted to one playlist_id: a list of
   (track_id, position) rows in store order. Every statement of the
   source filters on playlist_id, so rows of other playlists are
   untouched and are left out of the model. The composite primary key
   (playlist_id, track_id) makes the INSERT of add_track fail when the
   track is already a member; the shift UPDATE that ran first is,
   however, already committed (each execute call is its own
   transaction), so the failed insert leaves the shift behind.
   --------------------------------------------------------------- -/

abbrev PRow := Nat × Nat

abbrev PState := List PRow

/-- Playlist.add_track: UPDATE playlist_tracks SET position = position
+ 1 WHERE playlist_id = ?, then INSERT (playlist_id, track_id, 1). The
insert violates the primary key and is rolled back (alone) when the
track is already a member. -/
def Playlist.add_track (s : PState) (t : Nat) : PState :=
  let shifted := s.map (fun r => (r.1, r.2 + 1))
  if shifted.any (fun r => r.1 == t) then shifted
  else shifted ++ [(t, 1)]

/-- Playlist.remove_track: SELECT the position of the pair (first row,
None meaning return 0), DELETE the pair, then UPDATE position =
position - 1 WHERE position > removed position, returning the
rowcount of that final UPDATE. -/
def Playlist.remove_track (s : PState) (t : Nat) : PState × Nat :=
  match (s.filter (fun r => r.1 == t)).head? with
  | none => (s, 0)
  | some r =>
    let position := r.2
    let deleted := s.filter (fun q => !(q.1 == t))
    let shifted := deleted.map (fun q =>
      if position < q.2 then (q.1, q.2 - 1) else q)
    (shifted, (deleted.filter (fun q => position < q.2)).length)

/-- Playlist.change_track_position: SELECT the current position (None
meaning return 0); equal positions return 0 unchanged; moving forward
decrements the positions in (current, new], moving backward increments
those in [new, current); finally the chosen track is set to the new
position, returning the rowcount of that final UPDATE. -/
def Playlist.change_track_position (s : PState) (t : Nat) (p : Nat) :
    PState × Nat :=
  match (s.filter (fun r => r.1 == t)).head? with
  | none => (s, 0)
  | some r =>
    let c := r.2
    if c = p then (s, 0)
    else
      let shifted :=
        if c < p then
          s.map (fun q => if c < q.2 ∧ q.2 ≤ p then (q.1, q.2 - 1) else q)
        else
          s.map (fun q => if p ≤ q.2 ∧ q.2 < c then (q.1, q.2 + 1) else q)
      let placed := shifted.map (fun q => if q.1 == t then (q.1, p) else q)
      (placed, (shifted.filter (fun q => q.1 == t)).length)

/-- Playlist.get_tracks: SELECT the member rows joined with track data
ORDER BY position (ascending). -/
def Playlist.get_tracks (s : PState) : PState :=
  s.mergeSort (fun a b => decide (a.2 ≤ b.2))

/-- One playlist-membership mutation of the engine. -/
inductive PlaylistOp where
  | add (t : Nat)
  | remove (t : Nat)
  | move (t : Nat) (p : Nat)
deriving DecidableEq, Repr

/-- Apply one operation to a playlist state, discarding the returned
count. -/
def applyOp (s : PState) : PlaylistOp → PState
  | PlaylistOp.add t => Playlist.add_track s t
  | PlaylistOp.remove t => (Playlist.remove_track s t).1
  | PlaylistOp.move t p => (Playlist.change_track_position s t p).1

/-- Run a sequence of operations from the empty membership. -/
def applyOps (ops : List PlaylistOp) : PState :=
  ops.foldl applyOp []

/-- Side condition under which one operation keeps positions dense: an
insert concerns a track that is not yet a member, and a move of a
present track targets a position inside 1..N. Removals are always
safe. -/
def okOp (s : PState) : PlaylistOp → Bool
  | PlaylistOp.add t => !(s.any (fun r => r.1 == t))
  | PlaylistOp.remove _ => true
  | PlaylistOp.move t p =>
    !(s.any (fun r => r.1 == t)) || (decide (1 ≤ p) && decide (p ≤ s.length))

/-- Side condition over a whole operation sequence, evaluated along
the trace. -/
def okTrace : PState → List PlaylistOp → Bool
  | _, [] => true
  | s, op :: rest => okOp s op && okTrace (applyOp s op) rest

/-- Track ids are unique in a playlist (the composite primary key) and
the multiset of positions is exactly 1..N for N members. -/
def PlaylistInv (s : PState) : Prop :=
  (s.map Prod.fst).Nodup ∧
  (s.map Prod.snd).Perm (List.range' 1 s.length)

/- Helper lemmas on ranges, keys and positions for the playlist
engine proofs. -/

theorem map_add_one_range' (a k : Nat) :
    (List.range' a k).map (fun x => x + 1) = List.range' (a + 1) k := by
  induction k generalizing a with
  | zero => rfl
  | succ k ih =>
    rw [List.range'_succ, List.range'_succ, List.map_cons, ih]

theorem map_sub_one_range' (a k : Nat) :
    (List.range' (a + 1) k).map (fun x => x - 1) = List.range' a k := by
  induction k generalizing a with
  | zero => rfl
  | succ k ih =>
    rw [List.range'_succ, List.range'_succ, List.map_cons]
    rw [ih (a + 1)]
    simp

theorem range'_split (a m n : Nat) (h : m ≤ n) :
    List.range' a n = List.range' a m ++ List.range' (a + m) (n - m) := by
  have happ := List.range'_append a m (n - m) 1
  rw [Nat.one_mul] at happ
  have h2 : (n - m) + m = n := by omega
  rw [h2] at happ
  exact happ.symm

theorem erase_range' (p n : Nat) (h1 : 1 ≤ p) (h2 : p ≤ n) :
    (List.range' 1 n).erase p =
      List.range' 1 (p - 1) ++ List.range' (p + 1) (n - p) := by
  rw [range'_split 1 (p - 1) n (by omega)]
  have hhead : 1 + (p - 1) = p := by omega
  rw [hhead]
  have hnot : p ∉ List.range' 1 (p - 1) := by
    rw [List.mem_range'_1]
    omega
  rw [List.erase_append_right _ hnot]
  have hsucc : n - (p - 1) = (n - p) + 1 := by omega
  rw [hsucc, List.range'_succ, List.erase_cons_head]

theorem keys_map_eq {s : PState} {f : PRow → PRow}
    (hf : ∀ q, (f q).1 = q.1) :
    (s.map f).map Prod.fst = s.map Prod.fst := by
  rw [List.map_map]
  exact List.map_congr_left (fun q _ => hf q)

theorem pos_map_eq {s : PState} {f : PRow → PRow} {g : Nat → Nat}
    (hf : ∀ q ∈ s, (f q).2 = g q.2) :
    (s.map f).map Prod.snd = (s.map Prod.snd).map g := by
  rw [List.map_map, List.map_map]
  exact List.map_congr_left (fun q hq => hf q hq)

theorem mem_key_unique {s : PState} (hnd : (s.map Prod.fst).Nodup)
    {a b : PRow} (ha : a ∈ s) (hb : b ∈ s) (hk : a.1 = b.1) : a = b := by
  induction s with
  | nil => cases ha
  | cons x xs ih =>
    rw [List.map_cons, List.nodup_cons] at hnd
    cases ha with
    | head =>
      cases hb with
      | head => rfl
      | tail _ hb2 =>
        exact absurd (hk ▸ List.mem_map_of_mem Prod.fst hb2) hnd.1
    | tail _ ha2 =>
      cases hb with
      | head =>
        exact absurd (hk ▸ List.mem_map_of_mem Prod.fst ha2) hnd.1
      | tail _ hb2 => exact ih hnd.2 ha2 hb2

theorem perm_cons_filter_key {s : PState} {r : PRow} {t : Nat}
    (hnd : (s.map Prod.fst).Nodup) (hmem : r ∈ s) (hkey : r.1 = t) :
    s.Perm (r :: s.filter (fun q => !(q.1 == t))) := by
  induction s with
  | nil => cases hmem
  | cons x xs ih =>
    rw [List.map_cons, List.nodup_cons] at hnd
    cases hmem with
    | head =>
      have hxs : xs.filter (fun q => !(q.1 == t)) = xs := by
        apply List.filter_eq_self.mpr
        intro q hq
        have hq1 : q.1 ≠ t := by
          intro hc
          exact hnd.1 (hkey ▸ hc ▸ List.mem_map_of_mem Prod.fst hq)
        simp [hq1]
      have hcond : (!(r.1 == t)) = false := by simp [hkey]
      rw [List.filter_cons, hcond]
      rw [if_neg (by simp)]
      rw [hxs]
    | tail _ hmem2 =>
      have hxkeep : x.1 ≠ t := by
        intro hc
        exact hnd.1 (hc ▸ hkey ▸ List.mem_map_of_mem Prod.fst hmem2)
      have hcond : (!(x.1 == t)) = true := by simp [hxkeep]
      rw [List.filter_cons, hcond, if_pos rfl]
      exact (List.Perm.cons x (ih hnd.2 hmem2)).trans (List.Perm.swap r x _)

theorem head_filter_key {s : PState} {t : Nat} {r : PRow}
    (h : (s.filter (fun q => q.1 == t)).head? = some r) :
    r ∈ s ∧ r.1 = t := by
  have hmem : r ∈ s.filter (fun q => q.1 == t) := by
    cases hf : s.filter (fun q => q.1 == t) with
    | nil => rw [hf] at h; cases h
    | cons a l =>
      rw [hf] at h
      rw [List.head?_cons] at h
      cases h
      exact List.mem_cons_self _ _
  have hsplit := List.mem_filter.mp hmem
  exact ⟨hsplit.1, by simpa using hsplit.2⟩

theorem add_track_preserves {s : PState} {t : Nat}
    (hinv : PlaylistInv s) (hok : (s.any (fun r => r.1 == t)) = false) :
    PlaylistInv (Playlist.add_track s t) := by
  simp only [Playlist.add_track]
  have hany : ((s.map (fun r => (r.1, r.2 + 1))).any
      (fun r => r.1 == t)) = false := by
    rw [List.any_map]
    exact hok
  rw [hany, if_neg (by simp)]
  constructor
  · have hkeys : ((s.map (fun r : PRow => (r.1, r.2 + 1))) ++ [(t, 1)]).map
        Prod.fst = s.map Prod.fst ++ [t] := by
      rw [List.map_append,
        @keys_map_eq s (fun r => (r.1, r.2 + 1)) (fun q => rfl)]
      rfl
    rw [hkeys]
    rw [(List.perm_append_singleton t (s.map Prod.fst)).nodup_iff]
    rw [List.nodup_cons]
    refine ⟨?_, hinv.1⟩
    intro hc
    rw [List.any_eq_false] at hok
    obtain ⟨q, hq, hqt⟩ := List.mem_map.mp hc
    exact (hok q hq) (by simp [hqt])
  · have hpos : ((s.map (fun r : PRow => (r.1, r.2 + 1))) ++ [(t, 1)]).map
        Prod.snd = (s.map Prod.snd).map (fun x => x + 1) ++ [1] := by
      rw [List.map_append,
        @pos_map_eq s (fun r => (r.1, r.2 + 1)) (fun x => x + 1)
          (fun q hq => rfl)]
      rfl
    have hlen : ((s.map (fun r : PRow => (r.1, r.2 + 1))) ++ [(t, 1)]).length =
        s.length + 1 := by
      simp
    have h1 : ((s.map Prod.snd).map (fun x => x + 1)).Perm
        (List.range' 2 s.length) := by
      have h2 := hinv.2.map (fun x => x + 1)
      rwa [map_add_one_range'] at h2
    rw [hpos, hlen, List.range'_succ]
    exact (List.perm_append_singleton 1 _).trans (List.Perm.cons 1 h1)

theorem remove_track_preserves {s : PState} {t : Nat}
    (hinv : PlaylistInv s) :
    PlaylistInv (Playlist.remove_track s t).1 := by
  cases hh : (s.filter (fun r => r.1 == t)).head? with
  | none =>
    have hred : (Playlist.remove_track s t).1 = s := by
      unfold Playlist.remove_track
      rw [hh]
    rw [hred]
    exact hinv
  | some r =>
    obtain ⟨hmem, hkey⟩ := head_filter_key hh
    have hred : (Playlist.remove_track s t).1 =
        (s.filter (fun q => !(q.1 == t))).map
          (fun q => if r.2 < q.2 then (q.1, q.2 - 1) else q) := by
      unfold Playlist.remove_track
      rw [hh]
    rw [hred]
    have hperm0 : s.Perm (r :: s.filter (fun q => !(q.1 == t))) :=
      perm_cons_filter_key hinv.1 hmem hkey
    have hp_range : r.2 ∈ List.range' 1 s.length :=
      hinv.2.mem_iff.mp (List.mem_map_of_mem Prod.snd hmem)
    have hp_bounds := List.mem_range'_1.mp hp_range
    have hpos0 : (s.map Prod.snd).Perm
        (r.2 :: (s.filter (fun q => !(q.1 == t))).map Prod.snd) := by
      have h1 := hperm0.map Prod.snd
      simpa using h1
    have hdel_perm : ((s.filter (fun q => !(q.1 == t))).map Prod.snd).Perm
        ((List.range' 1 s.length).erase r.2) := by
      have h1 := hpos0.symm.trans hinv.2
      have h2 := List.perm_cons_erase hp_range
      exact (h1.trans h2).cons_inv
    have hlen_del : (s.filter (fun q => !(q.1 == t))).length =
        s.length - 1 := by
      have h1 : (s.filter (fun q => !(q.1 == t))).length =
          ((s.filter (fun q => !(q.1 == t))).map Prod.snd).length := by
        rw [List.length_map]
      rw [h1, hdel_perm.length_eq, List.length_erase_of_mem hp_range,
        List.length_range']
    constructor
    · rw [keys_map_eq (fun q => by by_cases hq : r.2 < q.2 <;> simp [hq])]
      exact List.Nodup.sublist ((List.filter_sublist s).map Prod.fst) hinv.1
    · rw [@pos_map_eq _ _ (fun x => if r.2 < x then x - 1 else x)
        (fun q _ => by by_cases hq : r.2 < q.2 <;> simp [hq])]
      have hmapped := hdel_perm.map (fun x => if r.2 < x then x - 1 else x)
      have hcompute : ((List.range' 1 s.length).erase r.2).map
          (fun x => if r.2 < x then x - 1 else x) =
          List.range' 1 (s.length - 1) := by
        rw [erase_range' r.2 s.length hp_bounds.1 (by omega)]
        rw [List.map_append]
        have hpart1 : (List.range' 1 (r.2 - 1)).map
            (fun x => if r.2 < x then x - 1 else x) =
            List.range' 1 (r.2 - 1) := by
          have hcongr : ∀ x ∈ List.range' 1 (r.2 - 1),
              (fun x => if r.2 < x then x - 1 else x) x = id x := by
            intro x hx
            have hb := List.mem_range'_1.mp hx
            simp only [id]
            rw [if_neg (by omega)]
          rw [List.map_congr_left hcongr, List.map_id]
        have hpart2 : (List.range' (r.2 + 1) (s.length - r.2)).map
            (fun x => if r.2 < x then x - 1 else x) =
            List.range' r.2 (s.length - r.2) := by
          have hcongr : ∀ x ∈ List.range' (r.2 + 1) (s.length - r.2),
              (fun x => if r.2 < x then x - 1 else x) x =
              (fun x => x - 1) x := by
            intro x hx
            have hb := List.mem_range'_1.mp hx
            simp only
            rw [if_pos (by omega)]
          rw [List.map_congr_left hcongr, map_sub_one_range']
        rw [hpart1, hpart2]
        have hsplit := range'_split 1 (r.2 - 1) (s.length - 1)
          (by omega)
        have he1 : 1 + (r.2 - 1) = r.2 := by omega
        have he2 : (s.length - 1) - (r.2 - 1) = s.length - r.2 := by omega
        rw [he1, he2] at hsplit
        exact hsplit.symm
      rw [List.length_map, hlen_del]
      rw [hcompute] at hmapped
      exact hmapped

theorem rest_positions_perm {s : PState} {t : Nat} {r : PRow}
    (hinv : PlaylistInv s) (hmem : r ∈ s) (hkey : r.1 = t) :
    ((s.filter (fun q => !(q.1 == t))).map Prod.snd).Perm
      ((List.range' 1 s.length).erase r.2) := by
  have hperm0 := perm_cons_filter_key hinv.1 hmem hkey
  have hp_range : r.2 ∈ List.range' 1 s.length :=
    hinv.2.mem_iff.mp (List.mem_map_of_mem Prod.snd hmem)
  have hpos0 : (s.map Prod.snd).Perm
      (r.2 :: (s.filter (fun q => !(q.1 == t))).map Prod.snd) := by
    simpa using hperm0.map Prod.snd
  exact ((hpos0.symm.trans hinv.2).trans
    (List.perm_cons_erase hp_range)).cons_inv

theorem erase_map_fwd (c p n : Nat) (h1 : 1 ≤ c) (hcp : c < p)
    (hpn : p ≤ n) :
    ((List.range' 1 n).erase c).map
      (fun x => if c < x ∧ x ≤ p then x - 1 else x) =
    (List.range' 1 n).erase p := by
  rw [erase_range' c n h1 (by omega)]
  rw [range'_split (c + 1) (p - c) (n - c) (by omega)]
  have he1 : (c + 1) + (p - c) = p + 1 := by omega
  have he2 : (n - c) - (p - c) = n - p := by omega
  rw [he1, he2]
  rw [List.map_append, List.map_append]
  have hpart1 : (List.range' 1 (c - 1)).map
      (fun x => if c < x ∧ x ≤ p then x - 1 else x) =
      List.range' 1 (c - 1) := by
    have hcongr : ∀ x ∈ List.range' 1 (c - 1),
        (fun x => if c < x ∧ x ≤ p then x - 1 else x) x = id x := by
      intro x hx
      have hb := List.mem_range'_1.mp hx
      simp only [id]
      rw [if_neg (by omega)]
    rw [List.map_congr_left hcongr, List.map_id]
  have hpart2 : (List.range' (c + 1) (p - c)).map
      (fun x => if c < x ∧ x ≤ p then x - 1 else x) =
      List.range' c (p - c) := by
    have hcongr : ∀ x ∈ List.range' (c + 1) (p - c),
        (fun x => if c < x ∧ x ≤ p then x - 1 else x) x =
        (fun x => x - 1) x := by
      intro x hx
      have hb := List.mem_range'_1.mp hx
      simp only
      rw [if_pos (by omega)]
    rw [List.map_congr_left hcongr, map_sub_one_range']
  have hpart3 : (List.range' (p + 1) (n - p)).map
      (fun x => if c < x ∧ x ≤ p then x - 1 else x) =
      List.range' (p + 1) (n - p) := by
    have hcongr : ∀ x ∈ List.range' (p + 1) (n - p),
        (fun x => if c < x ∧ x ≤ p then x - 1 else x) x = id x := by
      intro x hx
      have hb := List.mem_range'_1.mp hx
      simp only [id]
      rw [if_neg (by omega)]
    rw [List.map_congr_left hcongr, List.map_id]
  rw [hpart1, hpart2, hpart3]
  rw [erase_range' p n (by omega) hpn]
  rw [← List.append_assoc]
  congr 1
  have hsplit := range'_split 1 (c - 1) (p - 1) (by omega)
  have he3 : 1 + (c - 1) = c := by omega
  have he4 : (p - 1) - (c - 1) = p - c := by omega
  rw [he3, he4] at hsplit
  exact hsplit.symm

theorem erase_map_bwd (c p n : Nat) (hp1 : 1 ≤ p) (hpc : p < c)
    (hcn : c ≤ n) :
    ((List.range' 1 n).erase c).map
      (fun x => if p ≤ x ∧ x < c then x + 1 else x) =
    (List.range' 1 n).erase p := by
  rw [erase_range' c n (by omega) hcn]
  rw [range'_split 1 (p - 1) (c - 1) (by omega)]
  have he1 : 1 + (p - 1) = p := by omega
  have he2 : (c - 1) - (p - 1) = c - p := by omega
  rw [he1, he2]
  rw [List.map_append, List.map_append]
  have hpart1 : (List.range' 1 (p - 1)).map
      (fun x => if p ≤ x ∧ x < c then x + 1 else x) =
      List.range' 1 (p - 1) := by
    have hcongr : ∀ x ∈ List.range' 1 (p - 1),
        (fun x => if p ≤ x ∧ x < c then x + 1 else x) x = id x := by
      intro x hx
      have hb := List.mem_range'_1.mp hx
      simp only [id]
      rw [if_neg (by omega)]
    rw [List.map_congr_left hcongr, List.map_id]
  have hpart2 : (List.range' p (c - p)).map
      (fun x => if p ≤ x ∧ x < c then x + 1 else x) =
      List.range' (p + 1) (c - p) := by
    have hcongr : ∀ x ∈ List.range' p (c - p),
        (fun x => if p ≤ x ∧ x < c then x + 1 else x) x =
        (fun x => x + 1) x := by
      intro x hx
      have hb := List.mem_range'_1.mp hx
      simp only
      rw [if_pos (by omega)]
    rw [List.map_congr_left hcongr, map_add_one_range']
  have hpart3 : (List.range' (c + 1) (n - c)).map
      (fun x => if p ≤ x ∧ x < c then x + 1 else x) =
      List.range' (c + 1) (n - c) := by
    have hcongr : ∀ x ∈ List.range' (c + 1) (n - c),
        (fun x => if p ≤ x ∧ x < c then x + 1 else x) x = id x := by
      intro x hx
      have hb := List.mem_range'_1.mp hx
      simp only [id]
      rw [if_neg (by omega)]
    rw [List.map_congr_left hcongr, List.map_id]
  rw [hpart1, hpart2, hpart3]
  rw [erase_range' p n hp1 (by omega)]
  rw [List.append_assoc]
  congr 1
  have hsplit := range'_split (p + 1) (c - p) (n - p) (by omega)
  have he3 : (p + 1) + (c - p) = c + 1 := by omega
  have he4 : (n - p) - (c - p) = n - c := by omega
  rw [he3, he4] at hsplit
  exact hsplit.symm

theorem placed_positions_perm {s : PState} {t : Nat} {r : PRow}
    (hinv : PlaylistInv s) (hmem : r ∈ s) (hkey : r.1 = t)
    (F : PRow → PRow) (g : Nat → Nat) (p : Nat)
    (hFfst : ∀ q, (F q).1 = q.1)
    (hFsnd : ∀ q, (F q).2 = g q.2)
    (hFr : F r = r)
    (hg : ((List.range' 1 s.length).erase r.2).map g =
      (List.range' 1 s.length).erase p)
    (hp_mem : p ∈ List.range' 1 s.length) :
    (((s.map F).map (fun q => if q.1 == t then (q.1, p) else q)).map
      Prod.snd).Perm (List.range' 1 s.length) := by
  have hperm0 := perm_cons_filter_key hinv.1 hmem hkey
  have hcomp : (s.map F).map (fun q => if q.1 == t then (q.1, p) else q) =
      s.map (fun q => if (F q).1 == t then ((F q).1, p) else F q) := by
    rw [List.map_map]
    rfl
  rw [hcomp]
  have hperm1 := hperm0.map
    (fun q => if (F q).1 == t then ((F q).1, p) else F q)
  rw [List.map_cons] at hperm1
  have hGr : (if (F r).1 == t then ((F r).1, p) else F r) = (r.1, p) := by
    rw [hFr, if_pos (by simp [hkey])]
  rw [hGr] at hperm1
  have hperm2 := hperm1.map Prod.snd
  rw [List.map_cons] at hperm2
  have htail : ((s.filter (fun q => !(q.1 == t))).map
      (fun q => if (F q).1 == t then ((F q).1, p) else F q)).map Prod.snd =
      ((s.filter (fun q => !(q.1 == t))).map Prod.snd).map g := by
    rw [List.map_map, List.map_map]
    apply List.map_congr_left
    intro q hq
    have hqt : q.1 ≠ t := by
      have h2 := (List.mem_filter.mp hq).2
      simpa using h2
    simp only [Function.comp_apply]
    rw [hFfst q, if_neg (by simp [hqt])]
    exact hFsnd q
  rw [htail] at hperm2
  have hrest := (rest_positions_perm hinv hmem hkey).map g
  rw [hg] at hrest
  exact hperm2.trans ((List.Perm.cons p hrest).trans
    (List.perm_cons_erase hp_mem).symm)

theorem change_position_preserves {s : PState} {t p : Nat}
    (hinv : PlaylistInv s)
    (hok : (!(s.any (fun r => r.1 == t)) ||
      (decide (1 ≤ p) && decide (p ≤ s.length))) = true) :
    PlaylistInv (Playlist.change_track_position s t p).1 := by
  cases hh : (s.filter (fun r => r.1 == t)).head? with
  | none =>
    have hred : (Playlist.change_track_position s t p).1 = s := by
      unfold Playlist.change_track_position
      rw [hh]
    rw [hred]
    exact hinv
  | some r =>
    obtain ⟨hmem, hkey⟩ := head_filter_key hh
    have hstep : Playlist.change_track_position s t p =
        (if r.2 = p then (s, 0)
         else
           ((if r.2 < p then
                s.map (fun q : PRow =>
                  if r.2 < q.2 ∧ q.2 ≤ p then (q.1, q.2 - 1) else q)
              else
                s.map (fun q : PRow =>
                  if p ≤ q.2 ∧ q.2 < r.2 then (q.1, q.2 + 1) else q)).map
              (fun q => if q.1 == t then (q.1, p) else q),
            ((if r.2 < p then
                s.map (fun q : PRow =>
                  if r.2 < q.2 ∧ q.2 ≤ p then (q.1, q.2 - 1) else q)
              else
                s.map (fun q : PRow =>
                  if p ≤ q.2 ∧ q.2 < r.2 then (q.1, q.2 + 1) else q)).filter
              (fun q => q.1 == t)).length)) := by
      unfold Playlist.change_track_position
      rw [hh]
    by_cases hcp : r.2 = p
    · have hred : (Playlist.change_track_position s t p).1 = s := by
        rw [hstep, if_pos hcp]
      rw [hred]
      exact hinv
    · have hany : s.any (fun q => q.1 == t) = true := by
        rw [List.any_eq_true]
        exact ⟨r, hmem, by simp [hkey]⟩
      have hp_bounds : 1 ≤ p ∧ p ≤ s.length := by
        rw [hany] at hok
        simpa using hok
      have hc_range : r.2 ∈ List.range' 1 s.length :=
        hinv.2.mem_iff.mp (List.mem_map_of_mem Prod.snd hmem)
      have hc_bounds := List.mem_range'_1.mp hc_range
      have hp_mem : p ∈ List.range' 1 s.length :=
        List.mem_range'_1.mpr ⟨hp_bounds.1, by omega⟩
      by_cases hlt : r.2 < p
      · have hred : (Playlist.change_track_position s t p).1 =
            (s.map (fun q : PRow =>
              if r.2 < q.2 ∧ q.2 ≤ p then (q.1, q.2 - 1) else q)).map
              (fun q => if q.1 == t then (q.1, p) else q) := by
          rw [hstep, if_neg hcp, if_pos hlt]
        rw [hred]
        constructor
        · rw [@keys_map_eq _
            (fun q => if q.1 == t then (q.1, p) else q)
            (fun q => by by_cases h2 : q.1 == t <;> simp [h2])]
          rw [@keys_map_eq s
            (fun q : PRow =>
              if r.2 < q.2 ∧ q.2 ≤ p then (q.1, q.2 - 1) else q)
            (fun q => by by_cases h2 : r.2 < q.2 ∧ q.2 ≤ p <;> simp [h2])]
          exact hinv.1
        · have hlen : ((s.map (fun q : PRow =>
              if r.2 < q.2 ∧ q.2 ≤ p then (q.1, q.2 - 1) else q)).map
              (fun q => if q.1 == t then (q.1, p) else q)).length =
              s.length := by
            simp
          rw [hlen]
          exact placed_positions_perm hinv hmem hkey
            (fun q : PRow =>
              if r.2 < q.2 ∧ q.2 ≤ p then (q.1, q.2 - 1) else q)
            (fun x => if r.2 < x ∧ x ≤ p then x - 1 else x) p
            (fun q => by by_cases h2 : r.2 < q.2 ∧ q.2 ≤ p <;> simp [h2])
            (fun q => by by_cases h2 : r.2 < q.2 ∧ q.2 ≤ p <;> simp [h2])
            (by
              show (if r.2 < r.2 ∧ r.2 ≤ p then (r.1, r.2 - 1) else r) = r
              rw [if_neg (by omega)])
            (erase_map_fwd r.2 p s.length hc_bounds.1 hlt hp_bounds.2)
            hp_mem
      · have hred : (Playlist.change_track_position s t p).1 =
            (s.map (fun q : PRow =>
              if p ≤ q.2 ∧ q.2 < r.2 then (q.1, q.2 + 1) else q)).map
              (fun q => if q.1 == t then (q.1, p) else q) := by
          rw [hstep, if_neg hcp, if_neg hlt]
        rw [hred]
        constructor
        · rw [@keys_map_eq _
            (fun q => if q.1 == t then (q.1, p) else q)
            (fun q => by by_cases h2 : q.1 == t <;> simp [h2])]
          rw [@keys_map_eq s
            (fun q : PRow =>
              if p ≤ q.2 ∧ q.2 < r.2 then (q.1, q.2 + 1) else q)
            (fun q => by by_cases h2 : p ≤ q.2 ∧ q.2 < r.2 <;> simp [h2])]
          exact hinv.1
        · have hlen : ((s.map (fun q : PRow =>
              if p ≤ q.2 ∧ q.2 < r.2 then (q.1, q.2 + 1) else q)).map
              (fun q => if q.1 == t then (q.1, p) else q)).length =
              s.length := by
            simp
          rw [hlen]
          exact placed_positions_perm hinv hmem hkey
            (fun q : PRow =>
              if p ≤ q.2 ∧ q.2 < r.2 then (q.1, q.2 + 1) else q)
            (fun x => if p ≤ x ∧ x < r.2 then x + 1 else x) p
            (fun q => by by_cases h2 : p ≤ q.2 ∧ q.2 < r.2 <;> simp [h2])
            (fun q => by by_cases h2 : p ≤ q.2 ∧ q.2 < r.2 <;> simp [h2])
            (by
              show (if p ≤ r.2 ∧ r.2 < r.2 then (r.1, r.2 + 1) else r) = r
              rw [if_neg (by omega)])
            (erase_map_bwd r.2 p s.length hp_bounds.1 (by omega) (by omega))
            hp_mem

theorem applyOp_preserves {s : PState} {op : PlaylistOp}
    (hinv : PlaylistInv s) (hok : okOp s op = true) :
    PlaylistInv (applyOp s op) := by
  cases op with
  | add t =>
    have h3 : (!(s.any (fun r => r.1 == t))) = true := hok
    have h2 : s.any (fun r => r.1 == t) = false := by
      simpa using h3
    exact add_track_preserves hinv h2
  | remove t => exact remove_track_preserves hinv
  | move t p => exact change_position_preserves hinv hok

theorem okTrace_preserves : ∀ (ops : List PlaylistOp) (s : PState),
    PlaylistInv s → okTrace s ops = true →
    PlaylistInv (ops.foldl applyOp s) := by
  intro ops
  induction ops with
  | nil =>
    intro s hinv _
    exact hinv
  | cons op rest ih =>
    intro s hinv hok
    rw [okTrace, Bool.and_eq_true] at hok
    exact ih (applyOp s op) (applyOp_preserves hinv hok.1) hok.2

/-- Claim C1 (amended): starting from an empty membership, after any
sequence of add_track, remove_track and change_track_position
operations in which every add concerns a track that is not currently
a member and every move of a present track targets a position within
1..N, the multiset of positions of the member tracks equals
1..N with N the member count. -/
theorem playlist_positions_form_range (ops : List PlaylistOp)
    (h : okTrace [] ops = true) :
    ((applyOps ops).map Prod.snd).Perm
      (List.range' 1 (applyOps ops).length) :=
  (okTrace_preserves ops [] ⟨List.nodup_nil, by simp⟩ h).2

/-- Witness for claim C1: a concrete trace of two inserts, a removal
and a move, whose final position multiset is dense. -/
theorem playlist_positions_form_range_witness :
    okTrace [] [PlaylistOp.add 1, PlaylistOp.add 2, PlaylistOp.remove 1,
      PlaylistOp.move 2 1] = true ∧
    ((applyOps [PlaylistOp.add 1, PlaylistOp.add 2, PlaylistOp.remove 1,
      PlaylistOp.move 2 1]).map Prod.snd).Perm
      (List.range' 1 (applyOps [PlaylistOp.add 1, PlaylistOp.add 2,
        PlaylistOp.remove 1, PlaylistOp.move 2 1]).length) :=
  ⟨by decide, playlist_positions_form_range _ (by decide)⟩

/-- Counterexample to claim C1 as stated: adding a track that is
already a member commits the position shift and rolls back only the
insert, leaving positions 2..N+1, and moving a track beyond the
member count leaves a gap; either sequence breaks density. -/
theorem playlist_positions_form_range_cex :
    ¬ (((applyOps [PlaylistOp.add 1, PlaylistOp.add 1]).map
        Prod.snd).Perm
      (List.range' 1 (applyOps [PlaylistOp.add 1,
        PlaylistOp.add 1]).length)) ∧
    ¬ (((applyOps [PlaylistOp.add 1, PlaylistOp.move 1 5]).map
        Prod.snd).Perm
      (List.range' 1 (applyOps [PlaylistOp.add 1,
        PlaylistOp.move 1 5]).length)) := by
  decide

theorem filter_key_singleton {s : PState} {t p : Nat}
    (hnd : (s.map Prod.fst).Nodup) (hmem : (t, p) ∈ s) :
    s.filter (fun q => q.1 == t) = [(t, p)] := by
  induction s with
  | nil => cases hmem
  | cons x xs ih =>
    rw [List.map_cons, List.nodup_cons] at hnd
    cases hmem with
    | head =>
      have hxs : xs.filter (fun q => q.1 == t) = [] := by
        rw [List.filter_eq_nil_iff]
        intro q hq hqt
        apply hnd.1
        have hq1 : q.1 = t := by simpa using hqt
        show t ∈ List.map Prod.fst xs
        rw [← hq1]
        exact List.mem_map_of_mem Prod.fst hq
      rw [List.filter_cons, if_pos (by simp), hxs]
    | tail _ hmem2 =>
      have hxt : x.1 ≠ t := by
        intro hc
        apply hnd.1
        rw [hc]
        exact List.mem_map_of_mem Prod.fst hmem2
      rw [List.filter_cons, if_neg (by simp [hxt])]
      exact ih hnd.2 hmem2

/-- Claim C10: remove_track on a present pair returns the number of
members whose position is strictly greater than the removed position
(the rows shifted to close the gap), not the number of deleted rows;
removing the member holding the highest position therefore returns 0,
the same value as removing an absent pair. -/
theorem remove_track_returns_shift_count (s : PState) (t : Nat) :
    (∀ p : Nat, (s.map Prod.fst).Nodup → (t, p) ∈ s →
      ((Playlist.remove_track s t).2 =
          (s.filter (fun q => decide (p < q.2))).length ∧
        ((∀ q ∈ s, q.2 ≤ p) → (Playlist.remove_track s t).2 = 0))) ∧
    ((∀ q ∈ s, q.1 ≠ t) → Playlist.remove_track s t = (s, 0)) := by
  constructor
  · intro p hnd hmem
    have hfil := filter_key_singleton hnd hmem
    have hh : (s.filter (fun q => q.1 == t)).head? = some (t, p) := by
      rw [hfil]
      rfl
    have hred : Playlist.remove_track s t =
        ((s.filter (fun q => !(q.1 == t))).map
          (fun q => if p < q.2 then (q.1, q.2 - 1) else q),
         ((s.filter (fun q => !(q.1 == t))).filter
           (fun q => decide (p < q.2))).length) := by
      unfold Playlist.remove_track
      rw [hh]
    constructor
    · rw [hred]
      rw [List.filter_filter]
      show (s.filter (fun a => decide (p < a.2) && !(a.1 == t))).length =
        (s.filter (fun q => decide (p < q.2))).length
      congr 1
      apply List.filter_congr
      intro x hx
      by_cases hxt : x.1 = t
      · have hxe : x = (t, p) := mem_key_unique hnd hx hmem (by simp [hxt])
        rw [hxe]
        simp
      · simp [hxt]
    · intro hmax
      rw [hred]
      simp only [List.length_eq_zero]
      rw [List.filter_eq_nil_iff]
      intro q hq
      have hq2 := (List.mem_filter.mp hq).1
      have hle := hmax q hq2
      simp only [decide_eq_true_eq]
      omega
  · intro habs
    have hfil : s.filter (fun q => q.1 == t) = [] := by
      rw [List.filter_eq_nil_iff]
      intro q hq
      simp [habs q hq]
    unfold Playlist.remove_track
    rw [hfil]
    exact rfl

/-- Witness for claim C10: a three-member playlist; removing the
position-1 member returns 2, removing the position-3 member returns 0,
and removing an absent track returns 0 leaving the state unchanged. -/
theorem remove_track_returns_shift_count_witness :
    (Playlist.remove_track [(5, 1), (6, 2), (7, 3)] 5).2 =
      (([(5, 1), (6, 2), (7, 3)] : PState).filter
        (fun q => decide (1 < q.2))).length ∧
    (Playlist.remove_track [(5, 1), (6, 2), (7, 3)] 7).2 = 0 ∧
    Playlist.remove_track [(5, 1), (6, 2), (7, 3)] 9 =
      ([(5, 1), (6, 2), (7, 3)], 0) :=
  ⟨((remove_track_returns_shift_count [(5, 1), (6, 2), (7, 3)] 5).1 1
      (by decide) (by decide)).1,
   ((remove_track_returns_shift_count [(5, 1), (6, 2), (7, 3)] 7).1 3
      (by decide) (by decide)).2 (by decide),
   (remove_track_returns_shift_count [(5, 1), (6, 2), (7, 3)] 9).2
      (by decide)⟩

theorem foldl_add_closed : ∀ (ts : List Nat) (s : PState),
    ts.Nodup → (∀ u ∈ ts, ∀ q ∈ s, q.1 ≠ u) →
    ts.foldl Playlist.add_track s =
      s.map (fun q : PRow => (q.1, q.2 + ts.length)) ++
        ts.zip ((List.range' 1 ts.length).reverse) := by
  intro ts
  induction ts with
  | nil =>
    intro s _ _
    simp
  | cons t ts ih =>
    intro s hnd hdisj
    rw [List.foldl_cons]
    have hnotin : ((s.map (fun r : PRow => (r.1, r.2 + 1))).any
        (fun r => r.1 == t)) = false := by
      rw [List.any_map, List.any_eq_false]
      intro q hq
      simp only [Function.comp_apply]
      have hqt := hdisj t (List.mem_cons_self t ts) q hq
      simp [hqt]
    have hadd : Playlist.add_track s t =
        s.map (fun q : PRow => (q.1, q.2 + 1)) ++ [(t, 1)] := by
      simp only [Playlist.add_track]
      rw [hnotin, if_neg (by simp)]
    rw [hadd]
    have hnd2 : ts.Nodup := (List.nodup_cons.mp hnd).2
    have htnotts : t ∉ ts := (List.nodup_cons.mp hnd).1
    have hdisj2 : ∀ u ∈ ts, ∀ q ∈
        (s.map (fun q : PRow => (q.1, q.2 + 1)) ++ [(t, 1)]), q.1 ≠ u := by
      intro u hu q hq
      rcases List.mem_append.mp hq with hq1 | hq2
      · obtain ⟨q0, hq0, hq0e⟩ := List.mem_map.mp hq1
        rw [← hq0e]
        exact hdisj u (List.mem_cons_of_mem t hu) q0 hq0
      · rw [List.mem_singleton] at hq2
        rw [hq2]
        intro hc
        have hc2 : t = u := hc
        exact htnotts (hc2 ▸ hu)
    rw [ih _ hnd2 hdisj2]
    rw [List.map_append, List.map_map]
    have hcomp : ((fun q : PRow => (q.1, q.2 + ts.length)) ∘
        (fun q : PRow => (q.1, q.2 + 1))) =
        (fun q : PRow => (q.1, q.2 + (t :: ts).length)) := by
      funext q
      simp only [Function.comp_apply, List.length_cons]
      congr 1
      omega
    rw [hcomp]
    have hrange : (List.range' 1 ((t :: ts).length)).reverse =
        (1 + ts.length) :: (List.range' 1 ts.length).reverse := by
      rw [List.length_cons, List.range'_concat, List.reverse_append]
      simp
    rw [hrange, List.zip_cons_cons]
    simp

theorem mergeSort_desc_reverse (Z : PState)
    (hdesc : (Z.map Prod.snd).reverse = List.range' 1 Z.length) :
    Z.mergeSort (fun a b => decide (a.2 ≤ b.2)) = Z.reverse := by
  have hperm : (Z.mergeSort (fun a b => decide (a.2 ≤ b.2))).Perm Z :=
    List.mergeSort_perm Z _
  have htrans : ∀ a b c : PRow, decide (a.2 ≤ b.2) = true →
      decide (b.2 ≤ c.2) = true → decide (a.2 ≤ c.2) = true := by
    intro a b c h1 h2
    simp only [decide_eq_true_eq] at *
    omega
  have htotal : ∀ a b : PRow,
      (decide (a.2 ≤ b.2) || decide (b.2 ≤ a.2)) = true := by
    intro a b
    simp only [Bool.or_eq_true, decide_eq_true_eq]
    omega
  have hsorted := List.sorted_mergeSort htrans htotal Z
  have hsorted2 : List.Pairwise (fun a b : PRow => a.2 ≤ b.2)
      (Z.mergeSort (fun a b => decide (a.2 ≤ b.2))) := by
    refine hsorted.imp ?_
    intro a b hab
    simpa using hab
  have hposnd : ((Z.mergeSort (fun a b => decide (a.2 ≤ b.2))).map
      Prod.snd).Nodup := by
    rw [(hperm.map Prod.snd).nodup_iff]
    have hrev : (Z.map Prod.snd).reverse.Nodup := by
      rw [hdesc]
      exact List.nodup_range' 1 Z.length
    rwa [List.nodup_reverse] at hrev
  have hne : List.Pairwise (fun a b : PRow => a.2 ≠ b.2)
      (Z.mergeSort (fun a b => decide (a.2 ≤ b.2))) :=
    List.pairwise_map.mp hposnd
  have hstrict : List.Pairwise (fun a b : PRow => a.2 < b.2)
      (Z.mergeSort (fun a b => decide (a.2 ≤ b.2))) :=
    (hsorted2.and hne).imp (fun hab => lt_of_le_of_ne hab.1 hab.2)
  have hmaprev : Z.reverse.map Prod.snd = List.range' 1 Z.length := by
    rw [List.map_reverse, hdesc]
  have hrevsorted : List.Pairwise (fun a b : PRow => a.2 < b.2)
      Z.reverse := by
    have hr := List.pairwise_lt_range' 1 Z.length
    rw [← hmaprev] at hr
    exact List.pairwise_map.mp hr
  have hpermrev : (Z.mergeSort (fun a b => decide (a.2 ≤ b.2))).Perm
      Z.reverse := hperm.trans (List.reverse_perm Z).symm
  haveI hanti : IsAntisymm PRow (fun a b => a.2 < b.2) :=
    ⟨fun a b h1 h2 => absurd (Nat.lt_trans h1 h2) (Nat.lt_irrefl _)⟩
  exact List.eq_of_perm_of_sorted hpermrev hstrict hrevsorted

/-- Claim C5: inserting N distinct tracks one at a time into an empty
playlist with add_track (shift every member up by one, insert the new
track at position 1) makes get_tracks return exactly those N tracks in
reverse insertion order, most recently added first. -/
theorem add_distinct_tracks_reverse_order (ts : List Nat)
    (h : ts.Nodup) :
    (Playlist.get_tracks (ts.foldl Playlist.add_track [])).map Prod.fst =
      ts.reverse := by
  have hclosed := foldl_add_closed ts [] h
    (by intro u hu q hq; cases hq)
  have hstate : ts.foldl Playlist.add_track [] =
      ts.zip ((List.range' 1 ts.length).reverse) := by
    rw [hclosed]
    rfl
  have hlenrev : ((List.range' 1 ts.length).reverse).length = ts.length := by
    simp
  have hlenzip : (ts.zip ((List.range' 1 ts.length).reverse)).length =
      ts.length := by
    rw [List.length_zip, hlenrev]
    exact Nat.min_self ts.length
  have hdesc : ((ts.zip ((List.range' 1 ts.length).reverse)).map
      Prod.snd).reverse =
      List.range' 1 (ts.zip ((List.range' 1 ts.length).reverse)).length := by
    rw [List.map_snd_zip _ _ (by rw [hlenrev]), List.reverse_reverse,
      hlenzip]
  rw [hstate]
  unfold Playlist.get_tracks
  rw [mergeSort_desc_reverse _ hdesc]
  rw [List.map_reverse]
  rw [List.map_fst_zip _ _ (by rw [hlenrev])]

/-- Witness for claim C5: inserting the three distinct tracks 4, 5, 6
lists them as 6, 5, 4. -/
theorem add_distinct_tracks_reverse_order_witness :
    ([4, 5, 6] : List Nat).Nodup ∧
    (Playlist.get_tracks (([4, 5, 6] : List Nat).foldl
      Playlist.add_track [])).map Prod.fst = [6, 5, 4] :=
  ⟨by decide, add_distinct_tracks_reverse_order [4, 5, 6] (by decide)⟩
